import Mathlib

/-!
Verification of the glm-ocr-service job pipeline: a shallow embedding of the
store (app/crud.py, app/models.py), the worker loop (app/worker.py), the OCR
backend adapters (app/ocr_backends/huggingface.py, app/ocr_backends/ollama.py)
and the HTTP validation logic (app/routes.py), together with theorems about
the claim protocol, parent-status derivation, retry policy, status
monotonicity, deletion and input validation.
-/

namespace GlmOcr

/-- Lifecycle status of a job or page job (the `status` string columns of
app/models.py; values "queued" / "processing" / "completed" / "failed"). -/
inductive PStatus
  | queued
  | processing
  | completed
  | failed
deriving DecidableEq, Repr

/-- A row of the `ocr_page_jobs` table (app/models.py, class OcrPageJob).
Timestamps are abstracted as naturals; `image_data` as a byte list. -/
structure PageRow where
  id : String
  parent_job_id : String
  page_number : Nat
  image_data : List Nat
  markdown_text : Option String
  status : PStatus
  worker_id : Option String
  error_message : Option String
  created_at : Nat
  updated_at : Nat
deriving DecidableEq, Repr

/-- A row of the `ocr_jobs` table (app/models.py, class OcrJob). -/
structure JobRow where
  id : String
  original_filename : String
  file_type : String
  total_pages : Nat
  status : PStatus
  created_at : Nat
  updated_at : Nat
deriving DecidableEq, Repr

/-- The embedded database: the two tables of app/models.py. -/
structure Store where
  jobs : List JobRow
  pageJobs : List PageRow
deriving DecidableEq, Repr

/-- app/crud.py `claim_page_job`: the conditional UPDATE
SET status to processing, worker_id, updated_at=now WHERE id matches AND
status is queued, RETURNING id; the Bool is whether a row was updated. -/
def claimPageJob (s : Store) (page_job_id wid : String) (now : Nat) :
    Store × Bool :=
  let hit := s.pageJobs.any fun r =>
    r.id == page_job_id && r.status == PStatus.queued
  let pages := s.pageJobs.map fun r =>
    if r.id == page_job_id && r.status == PStatus.queued then
      { r with status := PStatus.processing, worker_id := some wid,
               updated_at := now }
    else r
  ({ s with pageJobs := pages }, hit)

/-- A serialized sequence of `claim_page_job` calls on one page-job id,
each call supplying a worker id and a timestamp; returns the list of
returned Booleans. -/
def runClaims (s : Store) (page_job_id : String) :
    List (String × Nat) → List Bool
  | [] => []
  | (w, t) :: rest =>
      let step := claimPageJob s page_job_id w t
      step.2 :: runClaims step.1 page_job_id rest

/-- app/crud.py `get_job` restricted to the `status` column: the status of
the first row of `ocr_jobs` with the given id, if any. -/
def statusOfJob (s : Store) (job_id : String) : Option PStatus :=
  (s.jobs.find? fun j => j.id == job_id).map (·.status)

/-- app/crud.py `update_job_status`: UPDATE ocr_jobs SET status=?,
updated_at=now WHERE id=?. -/
def updateJobStatus (s : Store) (job_id : String) (st : PStatus) (now : Nat) :
    Store :=
  { s with jobs := s.jobs.map fun j =>
      if j.id == job_id then { j with status := st, updated_at := now }
      else j }

/-- The SELECT of app/crud.py `check_and_update_parent_status`: the statuses
of all page jobs whose `parent_job_id` matches. -/
def pageStatusList (s : Store) (parent : String) : List PStatus :=
  (s.pageJobs.filter fun r => r.parent_job_id == parent).map (·.status)

/-- The decision chain of app/crud.py `check_and_update_parent_status`
(lines 139-149): `none` means the parent row is left untouched. -/
def deriveParentUpdate (statuses : List PStatus) : Option PStatus :=
  if statuses.isEmpty then none
  else if statuses.all fun s => s == PStatus.completed then
    some PStatus.completed
  else if (statuses.any fun s => s == PStatus.failed) &&
      (statuses.all fun s => s == PStatus.completed || s == PStatus.failed) then
    some PStatus.failed
  else if statuses.any fun s => s == PStatus.processing then
    some PStatus.processing
  else none

/-- app/crud.py `check_and_update_parent_status`: recompute the parent-job
status from its page-job statuses and write it when a rule fires. -/
def checkAndUpdateParentStatus (s : Store) (parent : String) (now : Nat) :
    Store :=
  match deriveParentUpdate (pageStatusList s parent) with
  | none => s
  | some st => updateJobStatus s parent st now

instance {α : Type} (M : Multiset α) (p : α → Prop) [DecidablePred p] :
    Decidable (∃ x ∈ M, p x) :=
  Multiset.decidableExistsMultiset

/-- The derivation function of spec §4.1 stated over the multiset M of child
statuses, with `old` the previously stored parent status (kept when no rule
fires). -/
def deriveStatusSpec (old : PStatus) (M : Multiset PStatus) : PStatus :=
  if M = 0 then old
  else if ∀ x ∈ M, x = PStatus.completed then PStatus.completed
  else if (∃ x ∈ M, x = PStatus.failed) ∧
      (∀ x ∈ M, x = PStatus.completed ∨ x = PStatus.failed) then
    PStatus.failed
  else if ∃ x ∈ M, x = PStatus.processing then PStatus.processing
  else old

/-- A sample parent job used to instantiate the theorems. -/
def demoJob1 : JobRow :=
  ⟨"j1", "a.pdf", "pdf", 2, PStatus.queued, 0, 0⟩

/-- A second sample parent job. -/
def demoJob2 : JobRow :=
  ⟨"j2", "b.png", "image", 1, PStatus.queued, 1, 1⟩

/-- A sample queued page job of `demoJob1`. -/
def demoPage1 : PageRow :=
  ⟨"p1", "j1", 1, [], none, PStatus.queued, none, none, 0, 0⟩

/-- A sample queued page job of `demoJob2`. -/
def demoPage2 : PageRow :=
  ⟨"p2", "j2", 1, [], none, PStatus.queued, none, none, 1, 1⟩

/-- A sample store holding the two demo jobs and their page jobs. -/
def demoStore : Store :=
  ⟨[demoJob1, demoJob2], [demoPage1, demoPage2]⟩

/-- Whether `needle` is a leading segment of `hay` (character lists). -/
def charListHasPref : List Char → List Char → Bool
  | [], _ => true
  | _ :: _, [] => false
  | c :: cs, d :: ds => c == d && charListHasPref cs ds

/-- Whether `needle` occurs contiguously inside `hay` (character lists);
the embedding of the Python test `needle in hay` on strings. -/
def charListHasSub (needle : List Char) : List Char → Bool
  | [] => charListHasPref needle []
  | c :: t => charListHasPref needle (c :: t) || charListHasSub needle t

/-- The Python substring test `pat in hay`. -/
def strContains (hay pat : String) : Bool :=
  charListHasSub pat.data hay.data

/-- The characters after the last '.', or `none` when no '.' occurs:
the Python code `filename.rsplit(".", 1)[1]` guarded by `"." in filename`. -/
def lastDotSplit : List Char → Option (List Char)
  | [] => none
  | c :: cs =>
      match lastDotSplit cs with
      | some rest => some rest
      | none => if c == '.' then some cs else none

/-- routes.py submit_job lines 52-55: the lowercased dotted extension of the
filename, or "" when the filename has no '.'. -/
def extOf (filename : String) : String :=
  match lastDotSplit filename.data with
  | none => ""
  | some rest => "." ++ String.mk (rest.map Char.toLower)

/-- routes.py `ALLOWED_EXTENSIONS`. -/
def ALLOWED_EXTENSIONS : List String :=
  [".pdf", ".png", ".jpg", ".jpeg", ".tiff", ".bmp", ".webp"]

/-- routes.py `ALLOWED_CONTENT_TYPES`. -/
def ALLOWED_CONTENT_TYPES : List String :=
  ["application/pdf", "image/png", "image/jpeg", "image/tiff",
   "image/bmp", "image/webp"]

/-- The validation sequence of routes.py `submit_job` (lines 51-76):
`some code` is the HTTP status of the raised HTTPException, `none` means the
upload passes validation. An absent Content-Type header is modelled as "". -/
def submitValidate (filename content_type : String) (size maxMB : Nat) :
    Option Nat :=
  if !(ALLOWED_EXTENSIONS.contains (extOf filename)) then some 400
  else if content_type != "" &&
      !(ALLOWED_CONTENT_TYPES.contains content_type) then some 400
  else if size > maxMB * 1024 * 1024 then some 413
  else none

/-- app/crud.py `delete_job`: the Core statement DELETE FROM ocr_jobs WHERE
id=? RETURNING id; the Bool is whether a job row was deleted.  models.py
declares ON DELETE CASCADE on `ocr_page_jobs.parent_job_id`, but no code in
the repository issues PRAGMA foreign_keys=ON (SQLite leaves foreign keys
unenforced by default) and a Core DELETE bypasses the ORM-level cascade of
the `pages` relationship, so the page rows are not touched. -/
def deleteJob (s : Store) (job_id : String) : Store × Bool :=
  let existed := s.jobs.any fun j => j.id == job_id
  ({ s with jobs := s.jobs.filter fun j => !(j.id == job_id) }, existed)

/-- Insertion into a list sorted by `created_at` descending. -/
def insertByCreatedDesc (j : JobRow) : List JobRow → List JobRow
  | [] => [j]
  | a :: as =>
      if j.created_at ≤ a.created_at then a :: insertByCreatedDesc j as
      else j :: a :: as

/-- ORDER BY created_at DESC of app/crud.py `list_jobs`. -/
def sortByCreatedDesc : List JobRow → List JobRow
  | [] => []
  | j :: js => insertByCreatedDesc j (sortByCreatedDesc js)

/-- OFFSET/LIMIT applied by app/crud.py `list_jobs`; SQLite treats a
negative OFFSET as 0 and a negative LIMIT as unlimited. -/
def seqPage (l : List JobRow) (off lim : Int) : List JobRow :=
  let l1 := l.drop off.toNat
  if lim < 0 then l1 else l1.take lim.toNat

/-- app/crud.py `list_jobs`: optional status filter, created_at-descending
order, OFFSET (page-1)*page_size, LIMIT page_size, plus the total count. -/
def listJobsCrud (s : Store) (statusF : Option PStatus)
    (page page_size : Int) : List JobRow × Nat :=
  let base := match statusF with
    | none => s.jobs
    | some st => s.jobs.filter fun j => j.status == st
  (seqPage (sortByCreatedDesc base) ((page - 1) * page_size) page_size,
   base.length)

/-- Response of GET /ocr/jobs: either an HTTPException status or the 200
payload `{jobs, total, page, page_size}`. -/
inductive ListResp where
  | err (code : Nat) (msg : String)
  | ok (jobs : List JobRow) (total : Nat) (page page_size : Int)
deriving DecidableEq, Repr

/-- routes.py `list_all_jobs` (lines 229-258): rejects `page_size > 100` and
`page < 1` with 400, otherwise answers with the page of jobs and the echoed
paging parameters. -/
def listAllJobsRoute (s : Store) (statusF : Option PStatus)
    (page page_size : Int) : ListResp :=
  if page_size > 100 then ListResp.err 400 "page_size must be <= 100"
  else if page < 1 then ListResp.err 400 "page must be >= 1"
  else
    let q := listJobsCrud s statusF page page_size
    ListResp.ok q.1 q.2 page page_size

/-- OCR_MODE of the HuggingFace backend (huggingface.py, `_mode`). -/
inductive OcrMode
  | auto
  | text
  | table
deriving DecidableEq, Repr

/-- The literal separator inserted between the text pass and the table pass
(huggingface.py line 99). -/
def sepComment : String := "\n\n<!-- HTML tables with rowspan/colspan -->\n"

/-- The Markdown-table signature test of huggingface.py lines 82-85. -/
def hasTableSig (t : String) : Bool :=
  strContains t ("|") &&
    (strContains t ("---") || strContains t ("| :"))

/-- One iteration of the retry loop of `HuggingFaceBackend.process_image`
(huggingface.py lines 62-103), with the underlying Space calls abstracted as
an oracle indexed by call number: the outcome of the attempt and how many
underlying calls it made.  A table-pass exception is swallowed inside the
attempt and cannot fail it. -/
def hfAttempt (mode : OcrMode) (oracle : Nat → Except String String)
    (k : Nat) : Except String String × Nat :=
  match mode with
  | OcrMode.table => (oracle k, 1)
  | OcrMode.text => (oracle k, 1)
  | OcrMode.auto =>
    match oracle k with
    | Except.error e => (Except.error e, 1)
    | Except.ok text_result =>
      if hasTableSig text_result then
        match oracle (k + 1) with
        | Except.error _ => (Except.ok text_result, 2)
        | Except.ok table_html =>
          if strContains table_html ("<table") then
            (Except.ok (text_result ++ sepComment ++ table_html), 2)
          else (Except.ok text_result, 2)
      else (Except.ok text_result, 1)

deriving instance DecidableEq for Except

/-- Outcome of a whole `process_image` invocation of the HuggingFace
backend: final result, number of underlying calls, and the seconds slept
between attempts. -/
structure HFRun where
  result : Except String String
  calls : Nat
  sleeps : List Nat
deriving DecidableEq, Repr

/-- The OCRProcessingError message of huggingface.py lines 119-121. -/
def hfWrap (e : String) : String :=
  "OCR failed after 3 attempts: " ++ e

/-- `HuggingFaceBackend.process_image` (huggingface.py lines 51-121): the
`for attempt in range(3)` loop with backoff sleeps of 2^attempt seconds
after the first and second failed attempts, raising an OCRProcessingError
that wraps the last error after the third failure. -/
def hfProcess (mode : OcrMode) (oracle : Nat → Except String String) :
    HFRun :=
  let a0 := hfAttempt mode oracle 0
  match a0.1 with
  | Except.ok v => ⟨Except.ok v, a0.2, []⟩
  | Except.error _ =>
    let a1 := hfAttempt mode oracle a0.2
    match a1.1 with
    | Except.ok v => ⟨Except.ok v, a0.2 + a1.2, [1]⟩
    | Except.error _ =>
      let a2 := hfAttempt mode oracle (a0.2 + a1.2)
      match a2.1 with
      | Except.ok v => ⟨Except.ok v, a0.2 + a1.2 + a2.2, [1, 2]⟩
      | Except.error e2 =>
          ⟨Except.error (hfWrap e2), a0.2 + a1.2 + a2.2, [1, 2]⟩

/-- A Python exception as seen by `OllamaBackend.process_image`: either an
OCRProcessingError or any other exception. -/
inductive PyExc
  | ocrErr (msg : String)
  | otherExn (msg : String)
deriving DecidableEq, Repr

/-- The message carried by a Python exception. -/
def pyExcMsg : PyExc → String
  | PyExc.ocrErr m => m
  | PyExc.otherExn m => m

/-- `OllamaBackend.process_image` (ollama.py lines 27-49): unconfigured URL
fails immediately; the OpenAI-compatible call is tried once, an
OCRProcessingError from it is re-raised at once, any other exception falls
back to one native-API call whose failure is wrapped.  The Nat counts the
underlying HTTP calls. -/
def ollamaProcess (base_url : String)
    (openai_outcome native_outcome : Except PyExc String) :
    Except String String × Nat :=
  if base_url == "" then
    (Except.error ("Self-hosted backend not configured: set OLLAMA_URL env var"), 0)
  else
    match openai_outcome with
    | Except.ok v => (Except.ok v, 1)
    | Except.error (PyExc.ocrErr m) => (Except.error m, 1)
    | Except.error (PyExc.otherExn _) =>
      match native_outcome with
      | Except.ok v => (Except.ok v, 2)
      | Except.error e =>
          (Except.error ("All API attempts failed: " ++ pyExcMsg e), 2)

/-- An oracle on which the HuggingFace auto mode makes four underlying
calls: two failed text passes, then a text pass whose output carries the
table signature, then a table pass. -/
def oracleFourCalls : Nat → Except String String
  | 0 => Except.error ("boom0")
  | 1 => Except.error ("boom1")
  | 2 => Except.ok ("a | b\n| :--- |\nrow")
  | _ => Except.ok ("<table><tr></tr></table>")

/-- An oracle that always fails. -/
def oracleAllFail : Nat → Except String String :=
  fun _ => Except.error ("down")

/-- An oracle whose first call yields Markdown with the table signature and
whose second call yields HTML with a table tag. -/
def oracleTablePage : Nat → Except String String
  | 0 => Except.ok ("r1 | r2\n| :--- |")
  | _ => Except.ok ("<table><tr><td>x</td></tr></table>")

/-- app/crud.py `get_next_queued_page`: the oldest (by created_at) page job
with status queued, first row winning ties, as ORDER BY + LIMIT 1 does. -/
def getNextQueuedPage (s : Store) : Option PageRow :=
  (s.pageJobs.filter fun r => r.status == PStatus.queued).foldl
    (fun acc r =>
      match acc with
      | none => some r
      | some a => if r.created_at < a.created_at then some r else acc)
    none

/-- app/crud.py `update_page_job_result`: UPDATE ocr_page_jobs SET
markdown_text=?, status=?, error_message=?, updated_at=now WHERE id=?. -/
def updatePageJobResult (s : Store) (pid : String) (md : Option String)
    (st : PStatus) (err : Option String) (t : Nat) : Store :=
  { s with pageJobs := s.pageJobs.map fun r =>
      if r.id == pid then
        { r with markdown_text := md, status := st, error_message := err,
                 updated_at := t }
      else r }

/-- What `ocr_backend.process_image` does on one page, as the worker sees
it: a Markdown result, an OCRProcessingError, or any other exception. -/
inductive BackendOutcome
  | ok (markdown : String)
  | ocrError (msg : String)
  | exn (msg : String)
deriving DecidableEq, Repr

/-- What one pass of the worker loop body did. -/
inductive IterAction
  | sleptNoWork
  | lostRace
  | processed (pid : String)
deriving DecidableEq, Repr

/-- Result of one pass of the worker loop body: the durable store after the
session closes, the state the session itself reached before closing, and
what the pass did. -/
structure IterResult where
  committed : Store
  sessionView : Store
  action : IterAction
deriving DecidableEq, Repr

/-- One pass of the `while` body of `WorkerManager._run_worker`
(worker.py lines 60-123).  The Except codomain carries any exception that
would escape the pass: the source catches OCRProcessingError and every
other Exception around the process step, so each branch is `Except.ok`.
The pass runs inside `async with AsyncSessionLocal() as db` and never calls
commit, and the crud functions only flush, so the writes are rolled back
when the session closes: `committed` is the input store in every branch,
while `sessionView` is the state the flushes produced inside the
transaction. -/
def workerIteration (s : Store) (wid : String) (outcome : BackendOutcome)
    (t : Nat) : Except String IterResult :=
  match getNextQueuedPage s with
  | none => Except.ok ⟨s, s, IterAction.sleptNoWork⟩
  | some page_job =>
    if (claimPageJob s page_job.id wid t).2 = false then
      Except.ok ⟨s, (claimPageJob s page_job.id wid t).1,
        IterAction.lostRace⟩
    else
      match outcome with
      | BackendOutcome.ok markdown_text =>
          Except.ok ⟨s,
            checkAndUpdateParentStatus
              (updatePageJobResult (claimPageJob s page_job.id wid t).1
                page_job.id (some markdown_text) PStatus.completed none t)
              page_job.parent_job_id t,
            IterAction.processed page_job.id⟩
      | BackendOutcome.ocrError m =>
          Except.ok ⟨s,
            checkAndUpdateParentStatus
              (updatePageJobResult (claimPageJob s page_job.id wid t).1
                page_job.id none PStatus.failed (some m) t)
              page_job.parent_job_id t,
            IterAction.processed page_job.id⟩
      | BackendOutcome.exn m =>
          Except.ok ⟨s,
            checkAndUpdateParentStatus
              (updatePageJobResult (claimPageJob s page_job.id wid t).1
                page_job.id none PStatus.failed (some m) t)
              page_job.parent_job_id t,
            IterAction.processed page_job.id⟩

/-- routes.py `submit_job` lines 100-114: one job row plus its page rows,
inserted in a single transaction. -/
def createJobWithPages (s : Store) (job : JobRow)
    (newPages : List PageRow) : Store :=
  { jobs := s.jobs ++ [job], pageJobs := s.pageJobs ++ newPages }

/-- The write-back a worker performs after a backend outcome (worker.py lines
80-114): record the page result, then recompute the parent status. -/
def recordOutcome (s : Store) (pid parent : String)
    (outcome : BackendOutcome) (t : Nat) : Store :=
  match outcome with
  | BackendOutcome.ok md =>
      checkAndUpdateParentStatus
        (updatePageJobResult s pid (some md) PStatus.completed none t)
        parent t
  | BackendOutcome.ocrError m =>
      checkAndUpdateParentStatus
        (updatePageJobResult s pid none PStatus.failed (some m) t) parent t
  | BackendOutcome.exn m =>
      checkAndUpdateParentStatus
        (updatePageJobResult s pid none PStatus.failed (some m) t) parent t

/-- The edges of the page-job lifecycle DAG of spec §I5, reflexivity
included: stay put, queued → processing, or processing → terminal. -/
def StatusStep (a b : PStatus) : Bool :=
  a == b || (a == PStatus.queued && b == PStatus.processing) ||
    (a == PStatus.processing &&
      (b == PStatus.completed || b == PStatus.failed))

/-- A system state: the store plus which worker currently holds which
claimed page (the span between claim and result write in worker.py). -/
structure WState where
  store : Store
  holding : List (String × String)
deriving DecidableEq, Repr

/-- System invariant: page ids are unique (uuid4 primary keys), no page is
held twice, and the row of every held page is in status processing. -/
def Inv (σ : WState) : Prop :=
  ((σ.store.pageJobs.map fun r => r.id).Nodup) ∧
  ((σ.holding.map Prod.snd).Nodup) ∧
  ∀ wp ∈ σ.holding, ∀ r ∈ σ.store.pageJobs,
    r.id = wp.2 → r.status = PStatus.processing

instance (σ : WState) : Decidable (Inv σ) := by
  unfold Inv
  infer_instance

/-- The committed store operations the system performs on page jobs:
ingest inserts (fresh uuid4 ids, status queued), job deletes, claim
attempts (won or lost), and the result write-back of a worker on a page it
holds.  Claims may target any page id, covering the stale read of
`get_next_queued_page`. -/
inductive WStep : WState → WState → Prop
  | submit (σ : WState) (job : JobRow) (newPages : List PageRow)
      (hq : ∀ r ∈ newPages, r.status = PStatus.queued)
      (hnodup : (newPages.map fun r => r.id).Nodup)
      (hfreshRows : ∀ r ∈ newPages, ∀ r0 ∈ σ.store.pageJobs, r0.id ≠ r.id)
      (hfreshHold : ∀ r ∈ newPages, ∀ wp ∈ σ.holding, wp.2 ≠ r.id) :
      WStep σ ⟨createJobWithPages σ.store job newPages, σ.holding⟩
  | wipe (σ : WState) (job_id : String) :
      WStep σ ⟨(deleteJob σ.store job_id).1, σ.holding⟩
  | claimWon (σ : WState) (w pid : String) (t : Nat)
      (hres : (claimPageJob σ.store pid w t).2 = true) :
      WStep σ ⟨(claimPageJob σ.store pid w t).1, (w, pid) :: σ.holding⟩
  | claimLost (σ : WState) (w pid : String) (t : Nat)
      (hres : (claimPageJob σ.store pid w t).2 = false) :
      WStep σ ⟨(claimPageJob σ.store pid w t).1, σ.holding⟩
  | record (σ : WState) (w pid parent : String) (outcome : BackendOutcome)
      (t : Nat) (hmem : (w, pid) ∈ σ.holding) :
      WStep σ ⟨recordOutcome σ.store pid parent outcome t,
               σ.holding.erase (w, pid)⟩

lemma claimPageJob_jobs (s : Store) (pid w : String) (t : Nat) :
    (claimPageJob s pid w t).1.jobs = s.jobs := rfl

lemma claimPageJob_result_iff (s : Store) (pid w : String) (t : Nat) :
    (claimPageJob s pid w t).2 = true ↔
      ∃ r ∈ s.pageJobs, r.id = pid ∧ r.status = PStatus.queued := by
  simp [claimPageJob, List.any_eq_true]

lemma claimPageJob_mem_of_queued (s : Store) (pid w : String) (t : Nat)
    (r : PageRow) (hr : r ∈ s.pageJobs) (hid : r.id = pid)
    (hst : r.status = PStatus.queued) :
    { r with status := PStatus.processing, worker_id := some w,
             updated_at := t } ∈ (claimPageJob s pid w t).1.pageJobs := by
  simp only [claimPageJob, List.mem_map]
  exact ⟨r, hr, by simp [hid, hst]⟩

lemma claimPageJob_mem_of_not_queued (s : Store) (pid w : String) (t : Nat)
    (r : PageRow) (hr : r ∈ s.pageJobs)
    (hn : ¬ (r.id = pid ∧ r.status = PStatus.queued)) :
    r ∈ (claimPageJob s pid w t).1.pageJobs := by
  simp only [claimPageJob, List.mem_map]
  refine ⟨r, hr, ?_⟩
  have hc : (r.id == pid && r.status == PStatus.queued) = false := by
    simp only [Bool.and_eq_false_iff, beq_eq_false_iff_ne, ne_eq]
    by_cases h1 : r.id = pid
    · exact Or.inr fun h2 => hn ⟨h1, h2⟩
    · exact Or.inl h1
  simp [hc]

lemma claimPageJob_no_queued_after (s : Store) (pid w : String) (t : Nat) :
    ∀ r ∈ (claimPageJob s pid w t).1.pageJobs,
      r.id = pid → r.status ≠ PStatus.queued := by
  intro r hr hid
  simp only [claimPageJob, List.mem_map] at hr
  obtain ⟨r0, _, heq⟩ := hr
  by_cases hc : (r0.id == pid && r0.status == PStatus.queued) = true
  · rw [if_pos hc] at heq
    subst heq
    simp
  · rw [if_neg hc] at heq
    subst heq
    simp only [Bool.and_eq_true, beq_iff_eq, not_and] at hc
    exact hc hid

lemma claimPageJob_false_of_no_queued (s : Store) (pid w : String) (t : Nat)
    (h : ∀ r ∈ s.pageJobs, r.id = pid → r.status ≠ PStatus.queued) :
    (claimPageJob s pid w t).2 = false := by
  rw [Bool.eq_false_iff]
  intro hc
  obtain ⟨r, hr, hid, hst⟩ := (claimPageJob_result_iff s pid w t).mp hc
  exact h r hr hid hst

lemma runClaims_count_zero (pid : String) (calls : List (String × Nat)) :
    ∀ s : Store,
      (∀ r ∈ s.pageJobs, r.id = pid → r.status ≠ PStatus.queued) →
      (runClaims s pid calls).count true = 0 := by
  induction calls with
  | nil => intro s _; simp [runClaims]
  | cons c rest ih =>
      intro s h
      obtain ⟨w, t⟩ := c
      have hfalse := claimPageJob_false_of_no_queued s pid w t h
      have htail := ih (claimPageJob s pid w t).1
        (claimPageJob_no_queued_after s pid w t)
      simp [runClaims, hfalse, htail, List.count_cons]

lemma runClaims_count_le_one (s : Store) (pid : String)
    (calls : List (String × Nat)) :
    (runClaims s pid calls).count true ≤ 1 := by
  cases calls with
  | nil => simp [runClaims]
  | cons c rest =>
      obtain ⟨w, t⟩ := c
      have htail := runClaims_count_zero pid rest (claimPageJob s pid w t).1
        (claimPageJob_no_queued_after s pid w t)
      by_cases hb : (claimPageJob s pid w t).2 = true <;>
        simp [runClaims, hb, htail, List.count_cons]

/-- Claim C1: `claim_page_job` returns true iff the status of the page job is
`queued` at the moment of the call; when it is, the row transitions to
`processing` with the worker id of the caller and a bumped `updated_at`, other
rows are untouched; and over any serialized sequence of claim calls on the
same page-job id, at most one call returns true. -/
theorem C1_claim_page_job (s : Store) (pid : String) :
    (∀ w t, ((claimPageJob s pid w t).2 = true ↔
        ∃ r ∈ s.pageJobs, r.id = pid ∧ r.status = PStatus.queued))
  ∧ (∀ w t r, r ∈ s.pageJobs → r.id = pid → r.status = PStatus.queued →
      { r with status := PStatus.processing, worker_id := some w,
               updated_at := t } ∈ (claimPageJob s pid w t).1.pageJobs)
  ∧ (∀ w t r, r ∈ s.pageJobs → ¬ (r.id = pid ∧ r.status = PStatus.queued) →
      r ∈ (claimPageJob s pid w t).1.pageJobs)
  ∧ (∀ calls, (runClaims s pid calls).count true ≤ 1) :=
  ⟨fun w t => claimPageJob_result_iff s pid w t,
   fun w t r hr hid hst => claimPageJob_mem_of_queued s pid w t r hr hid hst,
   fun w t r hr hn => claimPageJob_mem_of_not_queued s pid w t r hr hn,
   fun calls => runClaims_count_le_one s pid calls⟩

/-- Witness for C1 on a concrete store: the claimed row is transitioned, and
three successive claim attempts on the same id yield at most one `true`. -/
theorem C1_claim_page_job_witness :
    ({ demoPage1 with status := PStatus.processing, worker_id := some ("w1"),
                      updated_at := 7 }
        ∈ (claimPageJob demoStore ("p1") ("w1") 7).1.pageJobs)
  ∧ (runClaims demoStore ("p1") [("w1", 7), ("w2", 8), ("w3", 9)]).count true
      ≤ 1 :=
  ⟨(C1_claim_page_job demoStore ("p1")).2.1 ("w1") 7 demoPage1 (by decide) rfl rfl,
   (C1_claim_page_job demoStore ("p1")).2.2.2 [("w1", 7), ("w2", 8), ("w3", 9)]⟩

lemma coe_ball (p : PStatus → Prop) (l : List PStatus) :
    (∀ x ∈ (↑l : Multiset PStatus), p x) ↔ ∀ x ∈ l, p x :=
  ⟨fun h x hx => h x (Multiset.mem_coe.mpr hx),
   fun h x hx => h x (Multiset.mem_coe.mp hx)⟩

lemma coe_bex (p : PStatus → Prop) (l : List PStatus) :
    (∃ x ∈ (↑l : Multiset PStatus), p x) ↔ ∃ x ∈ l, p x :=
  ⟨fun ⟨x, hx, hp⟩ => ⟨x, Multiset.mem_coe.mp hx, hp⟩,
   fun ⟨x, hx, hp⟩ => ⟨x, Multiset.mem_coe.mpr hx, hp⟩⟩

lemma deriveStatusSpec_coe (old : PStatus) (l : List PStatus) :
    deriveStatusSpec old (↑l : Multiset PStatus) =
      (match deriveParentUpdate l with
       | none => old
       | some st => st) := by
  by_cases h0 : l = []
  · subst h0
    simp [deriveStatusSpec, deriveParentUpdate]
  · unfold deriveStatusSpec deriveParentUpdate
    have hne : ¬ ((↑l : Multiset PStatus) = 0) := by simpa using h0
    have hemp : l.isEmpty = false := by
      cases l with
      | nil => exact absurd rfl h0
      | cons a as => rfl
    rw [if_neg hne, hemp, if_neg (by decide : ¬ (false = true))]
    by_cases hall : ∀ x ∈ l, x = PStatus.completed
    · rw [if_pos ((coe_ball _ _).mpr hall)]
      have hb : (l.all fun x => x == PStatus.completed) = true := by
        simp only [List.all_eq_true, beq_iff_eq]
        exact hall
      rw [hb, if_pos rfl]
    · rw [if_neg fun h => hall ((coe_ball _ _).mp h)]
      have hb : (l.all fun x => x == PStatus.completed) = false := by
        rw [Bool.eq_false_iff]
        intro hcontra
        simp only [List.all_eq_true, beq_iff_eq] at hcontra
        exact hall hcontra
      rw [hb, if_neg (by decide : ¬ (false = true))]
      by_cases hfail : (∃ x ∈ l, x = PStatus.failed) ∧
          ∀ x ∈ l, x = PStatus.completed ∨ x = PStatus.failed
      · rw [if_pos ⟨(coe_bex _ _).mpr hfail.1, (coe_ball _ _).mpr hfail.2⟩]
        have hb2 : ((l.any fun s => s == PStatus.failed) &&
            (l.all fun s =>
              s == PStatus.completed || s == PStatus.failed)) = true := by
          simp only [Bool.and_eq_true, List.any_eq_true, List.all_eq_true,
            beq_iff_eq, Bool.or_eq_true]
          exact hfail
        rw [hb2, if_pos rfl]
      · rw [if_neg fun h =>
          hfail ⟨(coe_bex _ _).mp h.1, (coe_ball _ _).mp h.2⟩]
        have hb2 : ((l.any fun s => s == PStatus.failed) &&
            (l.all fun s =>
              s == PStatus.completed || s == PStatus.failed)) = false := by
          rw [Bool.eq_false_iff]
          intro hcontra
          simp only [Bool.and_eq_true, List.any_eq_true, List.all_eq_true,
            beq_iff_eq, Bool.or_eq_true] at hcontra
          exact hfail hcontra
        rw [hb2, if_neg (by decide : ¬ (false = true))]
        by_cases hproc : ∃ x ∈ l, x = PStatus.processing
        · rw [if_pos ((coe_bex _ _).mpr hproc)]
          have hb3 : (l.any fun s => s == PStatus.processing) = true := by
            simp only [List.any_eq_true, beq_iff_eq]
            exact hproc
          rw [hb3, if_pos rfl]
        · rw [if_neg fun h => hproc ((coe_bex _ _).mp h)]
          have hb3 : (l.any fun s => s == PStatus.processing) = false := by
            rw [Bool.eq_false_iff]
            intro hcontra
            simp only [List.any_eq_true, beq_iff_eq] at hcontra
            exact hproc hcontra
          rw [hb3, if_neg (by decide : ¬ (false = true))]

lemma find?_update_status (jid : String) (st : PStatus) (t : Nat) :
    ∀ js : List JobRow,
      (((js.map fun j =>
          if j.id == jid then { j with status := st, updated_at := t }
          else j).find? fun j => j.id == jid).map (·.status)) =
        (((js.find? fun j => j.id == jid).map (·.status)).map fun _ => st) := by
  intro js
  induction js with
  | nil => rfl
  | cons j rest ih =>
      simp only [List.map_cons]
      by_cases h : j.id = jid
      · have hb : (j.id == jid) = true := by simpa using h
        have hupd : (fun x : JobRow => x.id == jid)
            { j with status := st, updated_at := t } = true := by
          simpa using h
        rw [if_pos hb,
          @List.find?_cons_of_pos _ (fun x : JobRow => x.id == jid)
            { j with status := st, updated_at := t } _ hupd,
          @List.find?_cons_of_pos _ (fun x : JobRow => x.id == jid) j rest hb]
        simp
      · have hnb : ¬ ((j.id == jid) = true) := by simpa using h
        rw [if_neg hnb,
          @List.find?_cons_of_neg _ (fun x : JobRow => x.id == jid) j _ hnb,
          @List.find?_cons_of_neg _ (fun x : JobRow => x.id == jid) j rest hnb]
        exact ih

lemma statusOfJob_updateJobStatus (s : Store) (jid : String) (st : PStatus)
    (t : Nat) :
    statusOfJob (updateJobStatus s jid st t) jid =
      (statusOfJob s jid).map fun _ => st := by
  unfold statusOfJob updateJobStatus
  simpa using find?_update_status jid st t s.jobs

lemma recompute_statusOfJob (s : Store) (parent : String) (t : Nat) :
    statusOfJob (checkAndUpdateParentStatus s parent t) parent =
      (statusOfJob s parent).map fun old =>
        deriveStatusSpec old (↑(pageStatusList s parent) : Multiset PStatus)
    := by
  unfold checkAndUpdateParentStatus
  cases hd : deriveParentUpdate (pageStatusList s parent) with
  | none =>
      cases hs : statusOfJob s parent <;>
        simp [deriveStatusSpec_coe, hd]
  | some st =>
      rw [statusOfJob_updateJobStatus]
      cases hs : statusOfJob s parent <;>
        simp [deriveStatusSpec_coe, hd]

/-- Claim C2: after `check_and_update_parent_status`, the stored status of the parent job equals the §4.1 derivation function applied to the multiset of its
page-job statuses, with the previous status kept when no rule fires. -/
theorem C2_recompute_parent_status (s : Store) (parent : String) (t : Nat) :
    statusOfJob (checkAndUpdateParentStatus s parent t) parent =
      (statusOfJob s parent).map fun old =>
        deriveStatusSpec old (↑(pageStatusList s parent) : Multiset PStatus)
    :=
  recompute_statusOfJob s parent t

/-- Claim C5 states the spec intent, but the code does not cascade:
deleting the demo job reports success and removes the job row, yet the
child page row survives with the now-dangling parent id, because no
PRAGMA foreign_keys=ON is ever issued and the Core DELETE bypasses the
ORM cascade. -/
theorem C5_delete_job_orphan :
    (deleteJob demoStore ("j1")).2 = true
  ∧ (deleteJob demoStore ("j1")).1.jobs = [demoJob2]
  ∧ demoPage1 ∈ (deleteJob demoStore ("j1")).1.pageJobs
  ∧ demoPage1.parent_job_id = "j1" := by
  decide

/-- Counterexample to claim C8: an upload of 52428801 bytes (over the 50 MB
limit) with an allowed extension but content type "text/plain" is rejected
with status 400, not 413, because the content-type check precedes the size
check. -/
theorem C8_counterexample :
    52428801 > 50 * 1024 * 1024
  ∧ ALLOWED_EXTENSIONS.contains (extOf ("big.png")) = true
  ∧ submitValidate ("big.png") ("text/plain") 52428801 50 = some 400 := by
  decide

/-- Claim C8 (amended): submit rejects with 400 every upload whose
lowercased extension is not allowed; among uploads whose extension is
allowed and whose declared content type is empty or allowed, it rejects
with 413 exactly those whose byte size exceeds MAX_FILE_SIZE_MB megabytes,
passing the others. -/
theorem C8_submit_validation (filename content_type : String)
    (size maxMB : Nat) :
    (ALLOWED_EXTENSIONS.contains (extOf filename) = false →
      submitValidate filename content_type size maxMB = some 400)
  ∧ (ALLOWED_EXTENSIONS.contains (extOf filename) = true →
      (content_type = "" ∨
        ALLOWED_CONTENT_TYPES.contains content_type = true) →
      size > maxMB * 1024 * 1024 →
      submitValidate filename content_type size maxMB = some 413)
  ∧ (ALLOWED_EXTENSIONS.contains (extOf filename) = true →
      (content_type = "" ∨
        ALLOWED_CONTENT_TYPES.contains content_type = true) →
      size ≤ maxMB * 1024 * 1024 →
      submitValidate filename content_type size maxMB = none) := by
  refine ⟨?_, ?_, ?_⟩
  · intro h
    have hmem : extOf filename ∉ ALLOWED_EXTENSIONS := by simpa using h
    simp [submitValidate, hmem]
  · intro h hct hsz
    have hmem : extOf filename ∈ ALLOWED_EXTENSIONS := by simpa using h
    have hctp : ¬ (¬ content_type = "" ∧
        content_type ∉ ALLOWED_CONTENT_TYPES) := by
      rcases hct with h1 | h1
      · exact fun hc => hc.1 h1
      · exact fun hc => hc.2 (by simpa using h1)
    simp [submitValidate, hmem, hctp, hsz]
  · intro h hct hsz
    have hmem : extOf filename ∈ ALLOWED_EXTENSIONS := by simpa using h
    have hctp : ¬ (¬ content_type = "" ∧
        content_type ∉ ALLOWED_CONTENT_TYPES) := by
      rcases hct with h1 | h1
      · exact fun hc => hc.1 h1
      · exact fun hc => hc.2 (by simpa using h1)
    simp [submitValidate, hmem, hctp, Nat.not_lt.mpr hsz]

/-- Witness for the amended C8: a 52428801-byte upload with an uppercase
allowed extension and no content type gets 413; a bad extension gets 400. -/
theorem C8_submit_validation_witness :
    submitValidate ("a.PNG") ("") 52428801 50 = some 413
  ∧ submitValidate ("nope.txt") ("") 5 50 = some 400 :=
  ⟨(C8_submit_validation ("a.PNG") ("") 52428801 50).2.1
      (by decide) (Or.inl rfl) (by decide),
   (C8_submit_validation ("nope.txt") ("") 5 50).1 (by decide)⟩

/-- Counterexample to claim C9: the request page=1, page_size=0 has a
page_size outside [1, 100] yet is answered with 200 and an empty job list,
because the route only rejects page_size > 100. -/
theorem C9_counterexample :
    ¬ (1 ≤ (0 : Int) ∧ (0 : Int) ≤ 100)
  ∧ listAllJobsRoute ⟨[], []⟩ none 1 0 = ListResp.ok [] 0 1 0 := by
  decide

/-- Claim C9 (amended): GET /ocr/jobs answers 400 exactly when
page_size > 100 or page < 1 (page_size values below 1 are accepted);
otherwise it returns the paginated job list with the given page and
page_size echoed back. -/
theorem C9_list_jobs_paging (s : Store) (statusF : Option PStatus)
    (page page_size : Int) :
    ((∃ c m, listAllJobsRoute s statusF page page_size = ListResp.err c m) ↔
      (page_size > 100 ∨ page < 1))
  ∧ (page_size ≤ 100 → 1 ≤ page →
      listAllJobsRoute s statusF page page_size =
        ListResp.ok (listJobsCrud s statusF page page_size).1
          (listJobsCrud s statusF page page_size).2 page page_size) := by
  constructor
  · constructor
    · rintro ⟨c, m, h⟩
      by_cases h1 : page_size > 100
      · exact Or.inl h1
      by_cases h2 : page < 1
      · exact Or.inr h2
      unfold listAllJobsRoute at h
      rw [if_neg h1, if_neg h2] at h
      exact absurd h (by simp)
    · rintro (h1 | h2)
      · exact ⟨400, _, by unfold listAllJobsRoute; rw [if_pos h1]⟩
      · by_cases h1 : page_size > 100
        · exact ⟨400, _, by unfold listAllJobsRoute; rw [if_pos h1]⟩
        · exact ⟨400, _,
            by unfold listAllJobsRoute; rw [if_neg h1, if_pos h2]⟩
  · intro hps hpg
    unfold listAllJobsRoute
    rw [if_neg (not_lt.mpr hps), if_neg (not_lt.mpr hpg)]

/-- Witness for the amended C9: a valid request is answered with the job
page and the echoed paging parameters. -/
theorem C9_list_jobs_paging_witness :
    listAllJobsRoute demoStore none 1 20 =
      ListResp.ok (listJobsCrud demoStore none 1 20).1
        (listJobsCrud demoStore none 1 20).2 1 20 :=
  (C9_list_jobs_paging demoStore none 1 20).2 (by decide) (by decide)

/-- Claim C10: a non-empty content type outside ALLOWED_CONTENT_TYPES is
rejected with 400 (whatever the extension), and an empty content type makes
the outcome depend only on the extension and size checks. -/
theorem C10_content_type_check (filename content_type : String)
    (size maxMB : Nat) :
    (content_type ≠ "" →
      ALLOWED_CONTENT_TYPES.contains content_type = false →
      submitValidate filename content_type size maxMB = some 400)
  ∧ (content_type = "" →
      submitValidate filename content_type size maxMB =
        (if ALLOWED_EXTENSIONS.contains (extOf filename) then
          (if size > maxMB * 1024 * 1024 then some 413 else none)
         else some 400)) := by
  constructor
  · intro hne hct
    have hctm : content_type ∉ ALLOWED_CONTENT_TYPES := by simpa using hct
    by_cases hext : extOf filename ∈ ALLOWED_EXTENSIONS
    · simp [submitValidate, hext, hne, hctm]
    · simp [submitValidate, hext]
  · intro h
    subst h
    by_cases hext : extOf filename ∈ ALLOWED_EXTENSIONS
    · simp [submitValidate, hext]
    · simp [submitValidate, hext]

/-- Witness for C10: a disallowed content type on an allowed extension gets
400; the same upload with no content type passes validation. -/
theorem C10_content_type_check_witness :
    submitValidate ("ok.png") ("text/plain") 5 50 = some 400
  ∧ submitValidate ("ok.png") ("") 5 50 = none :=
  ⟨(C10_content_type_check ("ok.png") ("text/plain") 5 50).1
      (by decide) (by decide),
   ((C10_content_type_check ("ok.png") ("") 5 50).2 rfl).trans (by decide)⟩

lemma hfAttempt_calls_le_two (mode : OcrMode)
    (oracle : Nat → Except String String) (k : Nat) :
    (hfAttempt mode oracle k).2 ≤ 2 := by
  cases mode with
  | table => simp [hfAttempt]
  | text => simp [hfAttempt]
  | auto =>
    cases h : oracle k with
    | error e => simp [hfAttempt, h]
    | ok tr =>
      cases h2 : oracle (k + 1) with
      | error e =>
          by_cases hs : hasTableSig tr = true <;>
            simp [hfAttempt, h, h2, hs]
      | ok th =>
          by_cases hs : hasTableSig tr = true
          · by_cases hc : strContains th ("<table") = true <;>
              simp [hfAttempt, h, h2, hs, hc]
          · simp [hfAttempt, h, hs]

lemma hfAttempt_error_calls (mode : OcrMode)
    (oracle : Nat → Except String String) (k : Nat) (e : String)
    (h : (hfAttempt mode oracle k).1 = Except.error e) :
    (hfAttempt mode oracle k).2 = 1 := by
  cases mode with
  | table => rfl
  | text => rfl
  | auto =>
    cases h0 : oracle k with
    | error e0 => simp [hfAttempt, h0]
    | ok tr =>
      exfalso
      cases h2 : oracle (k + 1) with
      | error e2 =>
          by_cases hs : hasTableSig tr = true <;>
            simp [hfAttempt, h0, h2, hs] at h
      | ok th =>
          by_cases hs : hasTableSig tr = true
          · by_cases hc : strContains th ("<table") = true <;>
              simp [hfAttempt, h0, h2, hs, hc] at h
          · simp [hfAttempt, h0, hs] at h

lemma hfAttempt_calls_nonauto (mode : OcrMode)
    (oracle : Nat → Except String String) (k : Nat)
    (h : mode ≠ OcrMode.auto) : (hfAttempt mode oracle k).2 = 1 := by
  cases mode with
  | auto => exact absurd rfl h
  | table => rfl
  | text => rfl

/-- Counterexample to claim C3: in auto mode, with two failed text passes
followed by a successful text pass whose output shows the table signature,
`process_image` makes four calls to the underlying OCR service, not at
most three. -/
theorem C3_counterexample :
    (hfProcess OcrMode.auto oracleFourCalls).calls = 4
  ∧ ¬ ((hfProcess OcrMode.auto oracleFourCalls).calls ≤ 3) := by
  decide

/-- Claim C3 (amended): the HuggingFace backend makes at most 3 attempts,
hence at most 3 underlying calls in text/table mode and at most 4 in auto
mode (a successful auto attempt may add a table pass); a failed invocation
sleeps 2^attempt seconds (1 s, 2 s) before the second and third attempts and
raises OCRProcessingError wrapping the last underlying error; the Ollama
backend instead makes at most 2 underlying calls with no retry. -/
theorem C3_retry_policy :
    (∀ mode oracle, (hfProcess mode oracle).calls ≤ 4)
  ∧ (∀ mode oracle, mode ≠ OcrMode.auto →
      (hfProcess mode oracle).calls ≤ 3)
  ∧ (∀ mode oracle e, (hfProcess mode oracle).result = Except.error e →
      (hfProcess mode oracle).sleeps = [1, 2] ∧
      ∃ e2, e = hfWrap e2 ∧
        (hfAttempt mode oracle ((hfAttempt mode oracle 0).2 +
          (hfAttempt mode oracle (hfAttempt mode oracle 0).2).2)).1 =
            Except.error e2)
  ∧ (∀ u o1 o2, (ollamaProcess u o1 o2).2 ≤ 2) := by
  refine ⟨?_, ?_, ?_, ?_⟩
  · intro mode oracle
    simp only [hfProcess]
    cases h0 : (hfAttempt mode oracle 0).1 with
    | ok v => simpa using (hfAttempt_calls_le_two mode oracle 0).trans (by omega)
    | error e0 =>
      have c0 := hfAttempt_error_calls mode oracle 0 e0 h0
      cases h1 : (hfAttempt mode oracle (hfAttempt mode oracle 0).2).1 with
      | ok v =>
          have c1 := hfAttempt_calls_le_two mode oracle
            (hfAttempt mode oracle 0).2
          simp only []
          omega
      | error e1 =>
          have c1 := hfAttempt_error_calls mode oracle
            (hfAttempt mode oracle 0).2 e1 h1
          have c2 := hfAttempt_calls_le_two mode oracle
            ((hfAttempt mode oracle 0).2 +
              (hfAttempt mode oracle (hfAttempt mode oracle 0).2).2)
          cases h2 : (hfAttempt mode oracle ((hfAttempt mode oracle 0).2 +
              (hfAttempt mode oracle (hfAttempt mode oracle 0).2).2)).1 <;>
            simp only [] <;> omega
  · intro mode oracle hmode
    simp only [hfProcess]
    have c0 := hfAttempt_calls_nonauto mode oracle 0 hmode
    have c1 := hfAttempt_calls_nonauto mode oracle
      (hfAttempt mode oracle 0).2 hmode
    have c2 := hfAttempt_calls_nonauto mode oracle
      ((hfAttempt mode oracle 0).2 +
        (hfAttempt mode oracle (hfAttempt mode oracle 0).2).2) hmode
    cases h0 : (hfAttempt mode oracle 0).1 with
    | ok v => simp only []; omega
    | error e0 =>
      cases h1 : (hfAttempt mode oracle (hfAttempt mode oracle 0).2).1 with
      | ok v => simp only []; omega
      | error e1 =>
        cases h2 : (hfAttempt mode oracle ((hfAttempt mode oracle 0).2 +
            (hfAttempt mode oracle (hfAttempt mode oracle 0).2).2)).1 <;>
          simp only [] <;> omega
  · intro mode oracle e herr
    simp only [hfProcess] at herr ⊢
    cases h0 : (hfAttempt mode oracle 0).1 with
    | ok v => simp [h0] at herr
    | error e0 =>
      cases h1 : (hfAttempt mode oracle (hfAttempt mode oracle 0).2).1 with
      | ok v => simp [h0, h1] at herr
      | error e1 =>
        cases h2 : (hfAttempt mode oracle ((hfAttempt mode oracle 0).2 +
            (hfAttempt mode oracle (hfAttempt mode oracle 0).2).2)).1 with
        | ok v => simp [h0, h1, h2] at herr
        | error e2 =>
          simp only [h0, h1, h2] at herr ⊢
          refine ⟨?_, e2, ?_, rfl⟩
          · simp
          · simpa using herr.symm
  · intro u o1 o2
    by_cases hu : (u == "") = true
    · simp [ollamaProcess, hu]
    · cases o1 with
      | ok v => simp [ollamaProcess, hu]
      | error e =>
        cases e with
        | ocrErr m => simp [ollamaProcess, hu]
        | otherExn m =>
          cases o2 with
          | ok v => simp [ollamaProcess, hu]
          | error e2 => simp [ollamaProcess, hu]

/-- Witness for the amended C3: with a permanently failing service the text
mode makes at most three calls, sleeps 1 s then 2 s, and raises the wrapped
error. -/
theorem C3_retry_policy_witness :
    (hfProcess OcrMode.text oracleAllFail).calls ≤ 3
  ∧ ((hfProcess OcrMode.text oracleAllFail).sleeps = [1, 2] ∧
      ∃ e2, hfWrap ("down") = hfWrap e2 ∧
        (hfAttempt OcrMode.text oracleAllFail
          ((hfAttempt OcrMode.text oracleAllFail 0).2 +
            (hfAttempt OcrMode.text oracleAllFail
              (hfAttempt OcrMode.text oracleAllFail 0).2).2)).1 =
                Except.error e2) :=
  ⟨C3_retry_policy.2.1 OcrMode.text oracleAllFail (by decide),
   C3_retry_policy.2.2.1 OcrMode.text oracleAllFail (hfWrap ("down")) rfl⟩

/-- Claim C7: in auto mode a successful attempt returns the first-pass text
alone unless it carries the table signature; with the signature, a failed
table pass is swallowed, and the table output is appended after the literal
HTML comment iff it contains "<table". -/
theorem C7_auto_two_pass (oracle : Nat → Except String String)
    (text_result : String) (h0 : oracle 0 = Except.ok text_result) :
    (hasTableSig text_result = false →
      hfProcess OcrMode.auto oracle = ⟨Except.ok text_result, 1, []⟩)
  ∧ (∀ e, hasTableSig text_result = true → oracle 1 = Except.error e →
      hfProcess OcrMode.auto oracle = ⟨Except.ok text_result, 2, []⟩)
  ∧ (∀ tbl, hasTableSig text_result = true → oracle 1 = Except.ok tbl →
      strContains tbl ("<table") = true →
      hfProcess OcrMode.auto oracle =
        ⟨Except.ok (text_result ++ sepComment ++ tbl), 2, []⟩)
  ∧ (∀ tbl, hasTableSig text_result = true → oracle 1 = Except.ok tbl →
      strContains tbl ("<table") = false →
      hfProcess OcrMode.auto oracle = ⟨Except.ok text_result, 2, []⟩) := by
  refine ⟨?_, ?_, ?_, ?_⟩
  · intro hs
    simp [hfProcess, hfAttempt, h0, hs]
  · intro e hs h1
    simp [hfProcess, hfAttempt, h0, hs, h1]
  · intro tbl hs h1 hc
    simp [hfProcess, hfAttempt, h0, hs, h1, hc]
  · intro tbl hs h1 hc
    simp [hfProcess, hfAttempt, h0, hs, h1, hc]

/-- Witness for C7: a page whose text pass shows the table signature and
whose table pass yields HTML produces the combined two-pass output. -/
theorem C7_auto_two_pass_witness :
    hfProcess OcrMode.auto oracleTablePage =
      ⟨Except.ok (("r1 | r2\n| :--- |") ++ sepComment ++
        ("<table><tr><td>x</td></tr></table>")), 2, []⟩ :=
  (C7_auto_two_pass oracleTablePage ("r1 | r2\n| :--- |") rfl).2.2.1
    ("<table><tr><td>x</td></tr></table>") (by decide) rfl (by decide)

lemma foldl_pickMin_mem (l : List PageRow) :
    ∀ (acc : Option PageRow) (r : PageRow),
      l.foldl (fun acc x =>
        match acc with
        | none => some x
        | some a => if x.created_at < a.created_at then some x else acc)
        acc = some r →
      acc = some r ∨ r ∈ l := by
  induction l with
  | nil => intro acc r h; exact Or.inl h
  | cons x xs ih =>
      intro acc r h
      rcases ih _ r h with h1 | h1
      · cases acc with
        | none =>
            dsimp only at h1
            cases h1
            exact Or.inr (List.mem_cons_self x xs)
        | some a =>
            dsimp only at h1
            by_cases hlt : x.created_at < a.created_at
            · rw [if_pos hlt] at h1
              cases h1
              exact Or.inr (List.mem_cons_self x xs)
            · rw [if_neg hlt] at h1
              exact Or.inl h1
      · exact Or.inr (List.mem_cons_of_mem x h1)

lemma getNextQueuedPage_mem (s : Store) (page : PageRow)
    (h : getNextQueuedPage s = some page) :
    page ∈ s.pageJobs ∧ page.status = PStatus.queued := by
  unfold getNextQueuedPage at h
  rcases foldl_pickMin_mem _ none page h with h1 | h1
  · exact absurd h1 (by simp)
  · have hm := List.mem_filter.mp h1
    exact ⟨hm.1, by simpa using hm.2⟩

lemma checkAndUpdateParentStatus_pageJobs (s : Store) (parent : String)
    (t : Nat) :
    (checkAndUpdateParentStatus s parent t).pageJobs = s.pageJobs := by
  unfold checkAndUpdateParentStatus
  cases deriveParentUpdate (pageStatusList s parent) <;> rfl

lemma updatePageJobResult_fields (s : Store) (pid : String)
    (md : Option String) (st : PStatus) (err : Option String) (t : Nat) :
    ∀ r ∈ (updatePageJobResult s pid md st err t).pageJobs, r.id = pid →
      r.status = st ∧ r.error_message = err := by
  intro r hr hid
  simp only [updatePageJobResult, List.mem_map] at hr
  obtain ⟨r0, hr0, heq⟩ := hr
  by_cases hc : (r0.id == pid) = true
  · rw [if_pos hc] at heq
    subst heq
    exact ⟨rfl, rfl⟩
  · rw [if_neg hc] at heq
    subst heq
    exact absurd hid (by simpa using hc)

/-- Claim C6 states the spec intent, but the code does not persist the
failure record: no exception escapes any pass of the worker loop body, and
on the demo store a backend exception leaves the page failed with the
message inside the session, yet the committed store is unchanged - the
worker never commits its session, so the rollback on close discards the
claim, the failed write and the parent recompute. -/
theorem C6_worker_rollback :
    (∀ s wid outcome t, ∃ p, workerIteration s wid outcome t = Except.ok p)
  ∧ (workerIteration demoStore ("w1") (BackendOutcome.exn ("boom")) 5).map
        (fun res => (res.committed,
          res.sessionView.pageJobs.map fun r =>
            (r.id, r.status, r.error_message),
          res.action)) =
      Except.ok (demoStore,
        [(("p1"), PStatus.failed, some ("boom")),
         (("p2"), PStatus.queued, none)],
        IterAction.processed ("p1")) := by
  constructor
  · intro s wid outcome t
    unfold workerIteration
    cases getNextQueuedPage s with
    | none => exact ⟨_, rfl⟩
    | some page =>
        dsimp only
        by_cases hc : (claimPageJob s page.id wid t).2 = false
        · rw [if_pos hc]
          exact ⟨_, rfl⟩
        · rw [if_neg hc]
          cases outcome <;> exact ⟨_, rfl⟩
  · rfl

lemma claimPageJob_ids (s : Store) (pid w : String) (t : Nat) :
    ((claimPageJob s pid w t).1.pageJobs.map fun r => r.id) =
      s.pageJobs.map fun r => r.id := by
  simp only [claimPageJob, List.map_map]
  apply List.map_congr_left
  intro r _
  by_cases hc : (r.id == pid && r.status == PStatus.queued) = true <;>
    simp [Function.comp, hc]

lemma updatePageJobResult_ids (s : Store) (pid : String) (md : Option String)
    (st : PStatus) (err : Option String) (t : Nat) :
    ((updatePageJobResult s pid md st err t).pageJobs.map fun r => r.id) =
      s.pageJobs.map fun r => r.id := by
  simp only [updatePageJobResult, List.map_map]
  apply List.map_congr_left
  intro r _
  by_cases hc : (r.id == pid) = true <;> simp [Function.comp, hc]

lemma updatePageJobResult_mem (s : Store) (pid : String) (md : Option String)
    (st : PStatus) (err : Option String) (t : Nat) :
    ∀ r' ∈ (updatePageJobResult s pid md st err t).pageJobs,
      ∃ r ∈ s.pageJobs, r'.id = r.id ∧
        (r' = r ∨ (r.id = pid ∧
          r' = { r with markdown_text := md, status := st,
                        error_message := err, updated_at := t })) := by
  intro r' hr'
  simp only [updatePageJobResult, List.mem_map] at hr'
  obtain ⟨r0, hr0, heq⟩ := hr'
  by_cases hc : (r0.id == pid) = true
  · rw [if_pos hc] at heq
    subst heq
    exact ⟨r0, hr0, rfl, Or.inr ⟨by simpa using hc, rfl⟩⟩
  · rw [if_neg hc] at heq
    subst heq
    exact ⟨r0, hr0, rfl, Or.inl rfl⟩

lemma claimPageJob_mem_origin (s : Store) (pid w : String) (t : Nat) :
    ∀ r' ∈ (claimPageJob s pid w t).1.pageJobs,
      ∃ r ∈ s.pageJobs, r'.id = r.id ∧
        (r' = r ∨ (r.status = PStatus.queued ∧
          r'.status = PStatus.processing)) := by
  intro r' hr'
  simp only [claimPageJob, List.mem_map] at hr'
  obtain ⟨r0, hr0, heq⟩ := hr'
  by_cases hc : (r0.id == pid && r0.status == PStatus.queued) = true
  · rw [if_pos hc] at heq
    subst heq
    simp only [Bool.and_eq_true, beq_iff_eq] at hc
    exact ⟨r0, hr0, rfl, Or.inr ⟨hc.2, rfl⟩⟩
  · rw [if_neg hc] at heq
    subst heq
    exact ⟨r0, hr0, rfl, Or.inl rfl⟩

lemma claimPageJob_won_processing (s : Store) (pid w : String) (t : Nat)
    (hnodup : (s.pageJobs.map fun r => r.id).Nodup)
    (hres : (claimPageJob s pid w t).2 = true) :
    ∀ r ∈ (claimPageJob s pid w t).1.pageJobs, r.id = pid →
      r.status = PStatus.processing := by
  obtain ⟨q, hq, hqid, hqst⟩ := (claimPageJob_result_iff s pid w t).mp hres
  intro r' hr' hid
  simp only [claimPageJob, List.mem_map] at hr'
  obtain ⟨r0, hr0, heq⟩ := hr'
  by_cases hc : (r0.id == pid && r0.status == PStatus.queued) = true
  · rw [if_pos hc] at heq
    subst heq
    rfl
  · rw [if_neg hc] at heq
    subst heq
    have hr0q : r0 = q :=
      List.inj_on_of_nodup_map hnodup hr0 hq (by rw [hid, hqid])
    subst hr0q
    exact absurd (by simp [hid, hqst]) hc

lemma claim_held_preserved (s : Store) (pid w : String) (t : Nat)
    (p : String) (h : ∀ r ∈ s.pageJobs, r.id = p →
      r.status = PStatus.processing) :
    ∀ r' ∈ (claimPageJob s pid w t).1.pageJobs, r'.id = p →
      r'.status = PStatus.processing := by
  intro r' hr' hid
  obtain ⟨r, hr, hrid, hcase⟩ := claimPageJob_mem_origin s pid w t r' hr'
  rcases hcase with rfl | ⟨_, hp⟩
  · exact h r' hr hid
  · exact hp

lemma claim_monotone (s : Store) (pid w : String) (t : Nat) :
    ∀ r' ∈ (claimPageJob s pid w t).1.pageJobs,
      ∃ r ∈ s.pageJobs, r.id = r'.id ∧
        StatusStep r.status r'.status = true := by
  intro r' hr'
  obtain ⟨r, hr, hrid, hcase⟩ := claimPageJob_mem_origin s pid w t r' hr'
  refine ⟨r, hr, hrid.symm, ?_⟩
  rcases hcase with rfl | ⟨hq, hp⟩
  · simp [StatusStep]
  · simp [StatusStep, hq, hp]

/-- Claim C4: every committed store operation of the system moves the status of each
page job along the lifecycle DAG only — unchanged, queued to
processing, or processing to a terminal state — and newly appearing rows
start at queued; the system invariant is preserved, so this holds along
every serialized execution. -/
theorem C4_page_status_monotone (σ σ' : WState) (hInv : Inv σ)
    (hstep : WStep σ σ') :
    Inv σ' ∧
    ∀ r' ∈ σ'.store.pageJobs,
      (∃ r ∈ σ.store.pageJobs, r.id = r'.id ∧
        StatusStep r.status r'.status = true) ∨
      (r'.status = PStatus.queued ∧
        ∀ r ∈ σ.store.pageJobs, r.id ≠ r'.id) := by
  obtain ⟨hids, hhol, hheld⟩ := hInv
  cases hstep with
  | submit job newPages hq hnodup hfreshRows hfreshHold =>
      constructor
      · refine ⟨?_, hhol, ?_⟩
        · simp only [createJobWithPages, List.map_append]
          refine hids.append hnodup ?_
          intro a ha hb
          simp only [List.mem_map] at ha hb
          obtain ⟨r0, hr0, rfl⟩ := ha
          obtain ⟨r, hr, hreq⟩ := hb
          exact hfreshRows r hr r0 hr0 hreq.symm
        · intro wp hwp r hr hid
          simp only [createJobWithPages, List.mem_append] at hr
          rcases hr with hr | hr
          · exact hheld wp hwp r hr hid
          · exact absurd hid.symm (hfreshHold r hr wp hwp)
      · intro r' hr'
        simp only [createJobWithPages, List.mem_append] at hr'
        rcases hr' with hr' | hr'
        · exact Or.inl ⟨r', hr', rfl, by simp [StatusStep]⟩
        · exact Or.inr ⟨hq r' hr',
            fun r hr hid => hfreshRows r' hr' r hr hid⟩
  | wipe job_id =>
      constructor
      · exact ⟨hids, hhol, hheld⟩
      · intro r' hr'
        exact Or.inl ⟨r', hr', rfl, by simp [StatusStep]⟩
  | claimWon w pid t hres =>
      constructor
      · refine ⟨?_, ?_, ?_⟩
        · rw [claimPageJob_ids]
          exact hids
        · rw [List.map_cons, List.nodup_cons]
          refine ⟨?_, hhol⟩
          intro hmem
          simp only [List.mem_map] at hmem
          obtain ⟨wp, hwp, hwp2⟩ := hmem
          obtain ⟨q, hq, hqid, hqst⟩ :=
            (claimPageJob_result_iff σ.store pid w t).mp hres
          have := hheld wp hwp q hq (by rw [hqid, hwp2])
          rw [this] at hqst
          exact PStatus.noConfusion hqst
        · intro wp hwp r hr hid
          rcases List.mem_cons.mp hwp with rfl | hwp'
          · exact claimPageJob_won_processing σ.store pid w t hids hres
              r hr hid
          · exact claim_held_preserved σ.store pid w t wp.2
              (fun r0 hr0 h0 => hheld wp hwp' r0 hr0 h0) r hr hid
      · intro r' hr'
        exact Or.inl (claim_monotone σ.store pid w t r' hr')
  | claimLost w pid t hres =>
      constructor
      · refine ⟨?_, hhol, ?_⟩
        · rw [claimPageJob_ids]
          exact hids
        · intro wp hwp r hr hid
          exact claim_held_preserved σ.store pid w t wp.2
            (fun r0 hr0 h0 => hheld wp hwp r0 hr0 h0) r hr hid
      · intro r' hr'
        exact Or.inl (claim_monotone σ.store pid w t r' hr')
  | record w pid parent outcome t hmem =>
      have hpidproc : ∀ r ∈ σ.store.pageJobs, r.id = pid →
          r.status = PStatus.processing :=
        fun r hr hid => hheld (w, pid) hmem r hr hid
      have hwpne : ∀ wp ∈ σ.holding.erase (w, pid), wp.2 ≠ pid := by
        intro wp hwp
        have hbase : σ.holding.Nodup := hhol.of_map
        have hmem2 := (hbase.mem_erase_iff.mp hwp)
        intro hsnd
        exact hmem2.1
          (List.inj_on_of_nodup_map hhol hmem2.2 hmem hsnd)
      have hpages : ∀ md st err,
          (st = PStatus.completed ∨ st = PStatus.failed) →
          (∀ r' ∈ (updatePageJobResult σ.store pid md st err t).pageJobs,
            (∃ r ∈ σ.store.pageJobs, r.id = r'.id ∧
              StatusStep r.status r'.status = true)) := by
        intro md st err hst r' hr'
        obtain ⟨r, hr, hrid, hcase⟩ :=
          updatePageJobResult_mem σ.store pid md st err t r' hr'
        refine ⟨r, hr, hrid.symm, ?_⟩
        rcases hcase with rfl | ⟨hid, rfl⟩
        · simp [StatusStep]
        · have hproc := hpidproc r hr hid
          rcases hst with rfl | rfl <;> simp [StatusStep, hproc]
      have hheldnew : ∀ md st err,
          ∀ wp ∈ σ.holding.erase (w, pid),
          ∀ r' ∈ (updatePageJobResult σ.store pid md st err t).pageJobs,
            r'.id = wp.2 → r'.status = PStatus.processing := by
        intro md st err wp hwp r' hr' hid
        obtain ⟨r, hr, hrid, hcase⟩ :=
          updatePageJobResult_mem σ.store pid md st err t r' hr'
        rcases hcase with rfl | ⟨hpid, rfl⟩
        · exact hheld wp (List.mem_of_mem_erase hwp) r' hr hid
        · exfalso
          have h1 : r.id = wp.2 := hid
          exact hwpne wp hwp (h1.symm.trans hpid)
      constructor
      · refine ⟨?_, ?_, ?_⟩
        · cases outcome <;>
            (simp only [recordOutcome, checkAndUpdateParentStatus_pageJobs]
             rw [updatePageJobResult_ids]
             exact hids)
        · exact ((List.erase_sublist _ _).map _).nodup hhol
        · intro wp hwp r hr hid
          cases outcome <;>
            (simp only [recordOutcome,
               checkAndUpdateParentStatus_pageJobs] at hr
             exact hheldnew _ _ _ wp hwp r hr hid)
      · intro r' hr'
        cases outcome <;>
          (simp only [recordOutcome,
             checkAndUpdateParentStatus_pageJobs] at hr'
           exact Or.inl (hpages _ _ _ (by simp) r' hr'))

/-- Witness for C4: the concrete claim step on the demo store preserves the
invariant and moves the claimed page queued → processing while every other
page is untouched. -/
theorem C4_page_status_monotone_witness :
    Inv ⟨(claimPageJob demoStore ("p1") ("w1") 5).1, [(("w1"), ("p1"))]⟩
  ∧ ∀ r' ∈ (claimPageJob demoStore ("p1") ("w1") 5).1.pageJobs,
      (∃ r ∈ demoStore.pageJobs, r.id = r'.id ∧
        StatusStep r.status r'.status = true) ∨
      (r'.status = PStatus.queued ∧
        ∀ r ∈ demoStore.pageJobs, r.id ≠ r'.id) :=
  C4_page_status_monotone ⟨demoStore, []⟩
    ⟨(claimPageJob demoStore ("p1") ("w1") 5).1, [(("w1"), ("p1"))]⟩
    (by decide)
    (WStep.claimWon ⟨demoStore, []⟩ ("w1") ("p1") 5 (by decide))

end GlmOcr
